import Mathlib

/-!
Verification of the film-crawler core (`film_spider.py`): a shallow
embedding of its title resolution, page classifier, infobox field
extraction, pagination and frontier behaviour, with theorems checking the
specification's claims against the embedded code.

Python strings are modelled as Lean `String`; each Python string
primitive used by the spider (`strip`, `lower`, `join`, `split`,
`replace`, `in`, `re.search(r'(\d{4})', s)`, `urllib.parse.unquote`) is
given an executable Lean counterpart below, working on the underlying
character lists.  Simplifications that do not affect the claims:
`lower` is implemented for the Latin and Cyrillic letters occurring in
the spider's keywords, `\d` is the ASCII digits, and `unquote` decodes
each percent escape to one character without recombining multi-byte
UTF-8 sequences.
-/

/-- Python whitespace characters stripped by `str.strip()`. -/
def isPySpace (c : Char) : Bool :=
  c = ' ' || c = '\t' || c = '\n' || c = '\r' || c = Char.ofNat 11 || c = Char.ofNat 12

/-- Strip whitespace from both ends of a character list. -/
def trimChars (l : List Char) : List Char :=
  ((l.dropWhile isPySpace).reverse.dropWhile isPySpace).reverse

/-- Python `s.strip()`. -/
def pyStrip (s : String) : String := ⟨trimChars s.data⟩

/-- Lower-casing of one character: ASCII `A`-`Z` and Cyrillic `А`-`Я`, `Ё`
(the alphabets relevant to the spider's keyword tests); models Python
`str.lower` on the inputs this program compares. -/
def ruLower (c : Char) : Char :=
  let n := c.toNat
  if 65 ≤ n ∧ n ≤ 90 then Char.ofNat (n + 32)
  else if 1040 ≤ n ∧ n ≤ 1071 then Char.ofNat (n + 32)
  else if n = 1025 then Char.ofNat 1105
  else c

/-- Python `s.lower()`. -/
def pyLower (s : String) : String := ⟨s.data.map ruLower⟩

/-- Python `sep.join(parts)` on character lists. -/
def joinWithL (sep : List Char) : List (List Char) → List Char
  | [] => []
  | [p] => p
  | p :: q :: ps => p ++ sep ++ joinWithL sep (q :: ps)

/-- Python `sep.join(parts)`. -/
def joinWith (sep : String) (parts : List String) : String :=
  ⟨joinWithL sep.data (parts.map String.data)⟩

/-- Predicate `listIsPfx p l`: holds when `p` is an initial segment of `l`. -/
def listIsPfx : List Char → List Char → Bool
  | [], _ => true
  | _ :: _, [] => false
  | a :: p, b :: l => a = b && listIsPfx p l

/-- Predicate `listContainsSub pat l`: `pat` occurs as a contiguous run inside `l`
(Python `pat in l` for strings). -/
def listContainsSub (pat : List Char) : List Char → Bool
  | [] => pat.isEmpty
  | c :: t => listIsPfx pat (c :: t) || listContainsSub pat t

/-- Python `pat in s` (substring test). -/
def strContains (s pat : String) : Bool := listContainsSub pat.data s.data

/-- First run of four consecutive ASCII digits in a character list,
as found by `re.search(r'(\d{4})', s)`. -/
def firstFourDigitRunAux : List Char → Option (List Char)
  | a :: b :: c :: d :: rest =>
      if a.isDigit && b.isDigit && c.isDigit && d.isDigit then some [a, b, c, d]
      else firstFourDigitRunAux (b :: c :: d :: rest)
  | _ => none

/-- Python `re.search(r'(\d{4})', s)`: the first four-digit run, if any. -/
def firstFourDigitRun (s : String) : Option String :=
  (firstFourDigitRunAux s.data).map (fun cs => ⟨cs⟩)

/-- Value of a hexadecimal digit character. -/
def hexVal (c : Char) : Option Nat :=
  let n := c.toNat
  if 48 ≤ n ∧ n ≤ 57 then some (n - 48)
  else if 97 ≤ n ∧ n ≤ 102 then some (n - 87)
  else if 65 ≤ n ∧ n ≤ 70 then some (n - 55)
  else none

/-- Percent-decoding of `%XX` escapes; malformed escapes are kept
verbatim, as `urllib.parse.unquote` keeps them. -/
def percentDecodeAux : List Char → List Char
  | [] => []
  | '%' :: a :: b :: rest =>
      match hexVal a, hexVal b with
      | some x, some y => Char.ofNat (16 * x + y) :: percentDecodeAux rest
      | _, _ => '%' :: percentDecodeAux (a :: b :: rest)
  | c :: rest => c :: percentDecodeAux rest

/-- Python `urllib.parse.unquote` (per-byte model, see file header). -/
def pyUnquote (s : String) : String := ⟨percentDecodeAux s.data⟩

/-- Scan for the text following the last occurrence of `sep`:
`afterLastFuel sep fuel cand l` walks `l`, jumping over each
(non-overlapping, leftmost-first) occurrence of `sep` and remembering
the text after it; `cand` is the answer if no further occurrence is
found.  `fuel` only makes the recursion structural; any
`fuel > l.length` lets the scan run to the end. -/
def afterLastFuel (sep : List Char) : Nat → List Char → List Char → List Char
  | 0, cand, _ => cand
  | _ + 1, cand, [] => cand
  | fuel + 1, cand, c :: t =>
      if !sep.isEmpty && listIsPfx sep (c :: t) then
        afterLastFuel sep fuel ((c :: t).drop sep.length) ((c :: t).drop sep.length)
      else afterLastFuel sep fuel cand t

/-- Python `s.split(sep)[-1]` for non-empty `sep`: the segment after the
last occurrence of `sep`, or `s` itself when `sep` does not occur. -/
def afterLastStr (sep s : String) : String :=
  ⟨afterLastFuel sep.data (s.data.length + 1) s.data s.data⟩

/-- Python `s.replace('_', ' ')`. -/
def replaceUnderscores (s : String) : String :=
  ⟨s.data.map (fun c => if c = '_' then ' ' else c)⟩

/-! ## Data model

A fetched article page, as seen through the structural queries the
spider makes (`DocumentQuery` results).  Each field holds the list of
text nodes (or hrefs) the corresponding XPath/CSS query returns, in
document order. -/

/-- The sentinel placeholder the spider stores for undetermined fields. -/
def sentinel : String := "не указано"

/-- One infobox row (`//table[contains(@class,'infobox')]//tr`):
the text nodes of its `th` cells and of its `td` cells. -/
structure InfoboxRow where
  thTexts : List String
  tdTexts : List String

/-- An article page through the spider's queries:
`headingTexts` = `#firstHeading ::text`;
`infoboxPresent` = whether `//table[contains(@class,'infobox')]` is non-empty;
`captionTexts` = infobox `caption//text()`;
`leadTexts` = text nodes of the lead paragraphs of `.mw-parser-output`;
`infoboxRows` = the infobox `tr` rows;
`catLinkTexts` = `div#mw-normal-catlinks a::text`. -/
structure ArticleDoc where
  headingTexts : List String
  infoboxPresent : Bool
  captionTexts : List String
  leadTexts : List String
  infoboxRows : List InfoboxRow
  catLinkTexts : List String

/-- The classifier's query `//table[contains(@class,'infobox')]//tr/th//text()`:
all `th` text nodes of the infobox rows, flattened in document order. -/
def thTextNodes (d : ArticleDoc) : List String :=
  (d.infoboxRows.map InfoboxRow.thTexts).flatten

/-- The record the spider emits: fixed keys title, genre, director,
country, year (the `FilmItem` dict with the five CSV fields). -/
structure FilmItem where
  title : String
  genre : String
  director : String
  country : String
  year : String
deriving DecidableEq

/-! ## Title resolution (`parse_article`, lines 73-89) -/

/-- Heading title: `' '.join([p.strip() for p in heading_parts if p.strip()]).strip()`. -/
def headingTitle (headingTexts : List String) : String :=
  pyStrip (joinWith " " ((headingTexts.map pyStrip).filter (fun p => p ≠ "")))

/-- URL-derived title: last `/wiki/` path segment, underscores to
spaces, percent-decoded. -/
def urlTitle (url : String) : String :=
  pyUnquote (replaceUnderscores (afterLastStr "/wiki/" url))

/-- Title resolution: heading text, else URL-derived, else the sentinel. -/
def mkTitle (headingTexts : List String) (url : String) : String :=
  let t := headingTitle headingTexts
  if t ≠ "" then t
  else
    let t2 := urlTitle url
    if t2 ≠ "" then t2 else sentinel

/-! ## Page classifier (`is_film_page`, lines 143-173) -/

/-- Check 1: first infobox `caption` text node contains the keyword
(`caption and 'фильм' in caption.lower()`). -/
def captionHasKw (d : ArticleDoc) : Bool :=
  match d.captionTexts.head? with
  | some c => c ≠ "" && strContains (pyLower c) "фильм"
  | none => false

/-- Check 2: the first 200 lead-paragraph text nodes, space-joined and
lowered, contain the keyword. -/
def leadHasKw (d : ArticleDoc) : Bool :=
  let ft := if d.leadTexts.isEmpty then "" else pyLower (joinWith " " (d.leadTexts.take 200))
  strContains ft "фильм"

/-- Check 3: the first infobox `th` text node contains the keyword
(`first_th and 'фильм' in first_th.lower()`). -/
def firstThHasKw (d : ArticleDoc) : Bool :=
  match (thTextNodes d).head? with
  | some t => t ≠ "" && strContains (pyLower t) "фильм"
  | none => false

/-- Check 4: some category link text (stripped, lowered) contains
`фильм` or `фильмы`. -/
def catsHaveKw (d : ArticleDoc) : Bool :=
  (d.catLinkTexts.map (fun c => pyLower (pyStrip c))).any
    (fun c => strContains c "фильм" || strContains c "фильмы")

/-- Classifier `is_film_page`: hard infobox gate, then the layered keyword checks,
short-circuiting on the first positive. -/
def is_film_page (d : ArticleDoc) : Bool :=
  if !d.infoboxPresent then false
  else if captionHasKw d then true
  else if leadHasKw d then true
  else if firstThHasKw d then true
  else catsHaveKw d

/-! ## Field extraction (`parse_article`, lines 96-141) -/

/-- The initial record: the resolved title and all other fields at the
sentinel. -/
def initItem (title : String) : FilmItem :=
  ⟨title, sentinel, sentinel, sentinel, sentinel⟩

/-- The row's joined value:
`td_parts = [t.strip() for t in row.xpath('./td//text()').getall() if t.strip()]`,
`td = ', '.join(td_parts).strip() if td_parts else ''`. -/
def joinTd (tdTexts : List String) : String :=
  let parts := (tdTexts.map pyStrip).filter (fun t => t ≠ "")
  if parts ≠ [] then pyStrip (joinWith ", " parts) else ""

/-- Year normalization: the first 4-digit run of the value if present,
else the raw value. -/
def yearNorm (td : String) : String :=
  match firstFourDigitRun td with
  | some y => y
  | none => td

/-- Processing of one infobox row: empty labels are skipped, the
lowered label is tested against the keywords `жанр`, `режис`, `стра`,
`год` in that order, and only a non-empty joined value updates the
routed field. -/
def processRow (item : FilmItem) (r : InfoboxRow) : FilmItem :=
  let th := pyStrip (joinWith "" r.thTexts)
  let td := joinTd r.tdTexts
  if th = "" then item
  else
    let thl := pyLower th
    if strContains thl "жанр" then
      if td ≠ "" then { item with genre := td } else item
    else if strContains thl "режис" then
      if td ≠ "" then { item with director := td } else item
    else if strContains thl "стра" then
      if td ≠ "" then { item with country := td } else item
    else if strContains thl "год" then
      if td ≠ "" then { item with year := yearNorm td } else item
    else item

/-- Year fallback: if the year is still the sentinel after the infobox,
take the first 4-digit run of the stripped, space-joined lead text. -/
def yearFallback (item : FilmItem) (leadTexts : List String) : FilmItem :=
  if item.year = sentinel then
    let ft := pyStrip (joinWith " " (leadTexts.map pyStrip))
    match firstFourDigitRun ft with
    | some y => { item with year := y }
    | none => item
  else item

/-- The full field extraction of `parse_article`: resolved title,
initial sentinels, all infobox rows in order, then the year fallback.
Total by construction — it never fails or throws. -/
def extractRecord (d : ArticleDoc) (url : String) : FilmItem :=
  yearFallback (d.infoboxRows.foldl processRow (initItem (mkTitle d.headingTexts url)))
    d.leadTexts

/-- Callback `parse_article`: classify, and emit the extracted record only for
film pages. -/
def parse_article (d : ArticleDoc) (url : String) : Option FilmItem :=
  if !is_film_page d then none else some (extractRecord d url)

/-! ## Category pages: pagination (`parse`, lines 62-67) -/

/-- A category page through the spider's pagination queries:
`visibleNextHref` = `//a[contains(normalize-space(.),"Следующая")]/@href |> .get()`;
`relNextHref` = `//link[@rel="next"]/@href |> .get()`.
`none` means the query matched nothing. -/
structure CategoryDoc where
  visibleNextHref : Option String
  relNextHref : Option String

/-- Python truthiness of an optional href (`None` and `''` are falsy). -/
def truthyHref : Option String → Bool
  | none => false
  | some s => s ≠ ""

/-- The pagination of `parse`: the visible-text next link, else the
`rel=next` link, followed only when truthy. -/
def nextPageRequest (d : CategoryDoc) : Option String :=
  let np := if truthyHref d.visibleNextHref then d.visibleNextHref else d.relNextHref
  if truthyHref np then np else none

/-- The pagination requests yielded for one category page. -/
def paginationRequests (d : CategoryDoc) : List String :=
  (nextPageRequest d).toList

/-! ## Frontier (request dedup)

Modelled from the spec: the VisitedSet deduplication is performed by the
external Scrapy scheduler (requests are yielded without `dont_filter`,
so the framework's duplicate filter drops already-seen targets); the
repository's own code only yields requests.  Modelled after §4.1/§8:
a process-wide visited set, checked before enqueue, duplicates silently
dropped, each enqueued target fetched once. -/
structure Frontier where
  visited : List String
  fetches : List String
deriving DecidableEq

/-- Submit one URLTarget: already-visited targets are dropped, fresh
ones are recorded as visited and fetched. -/
def enqueue (f : Frontier) (u : String) : Frontier :=
  if u ∈ f.visited then f
  else { visited := u :: f.visited, fetches := f.fetches ++ [u] }

/-- Submit a sequence of URLTargets in order. -/
def enqueueAll (f : Frontier) (us : List String) : Frontier :=
  us.foldl enqueue f

/-! ## Field routing view of `processRow`

An equivalent routed view of the row-processing code, used to state
which field a row updates and with what value. -/

/-- The four infobox-routed record fields. -/
inductive RecField where
  | genre
  | director
  | country
  | year
deriving DecidableEq

/-- Read one routed field of a record. -/
def getField (it : FilmItem) : RecField → String
  | RecField.genre => it.genre
  | RecField.director => it.director
  | RecField.country => it.country
  | RecField.year => it.year

/-- Write one routed field of a record. -/
def setField (it : FilmItem) : RecField → String → FilmItem
  | RecField.genre, v => { it with genre := v }
  | RecField.director, v => { it with director := v }
  | RecField.country, v => { it with country := v }
  | RecField.year, v => { it with year := v }

/-- The field a row's label routes to: empty labels route nowhere,
otherwise the keywords `жанр`, `режис`, `стра`, `год` are tested in the
code's order against the lowered label. -/
def routeOf (r : InfoboxRow) : Option RecField :=
  let th := pyStrip (joinWith "" r.thTexts)
  if th = "" then none
  else
    let thl := pyLower th
    if strContains thl "жанр" then some RecField.genre
    else if strContains thl "режис" then some RecField.director
    else if strContains thl "стра" then some RecField.country
    else if strContains thl "год" then some RecField.year
    else none

/-- The value a row stores in its routed field: the joined value,
year-normalized when routed to the year. -/
def storedValue (r : InfoboxRow) : String :=
  match routeOf r with
  | some RecField.year => yearNorm (joinTd r.tdTexts)
  | _ => joinTd r.tdTexts

/-- One step of the last-non-empty-match scan for field `f`. -/
def lastRoutedStep (f : RecField) (acc : Option String) (r : InfoboxRow) : Option String :=
  if routeOf r = some f ∧ joinTd r.tdTexts ≠ "" then some (storedValue r) else acc

/-- The stored value of the last row routed to `f` with a non-empty
joined value, if any. -/
def lastRouted (f : RecField) (rows : List InfoboxRow) : Option String :=
  rows.foldl (lastRoutedStep f) none

/-! ## Helper lemmas -/

/-- A row with an empty joined value changes nothing. -/
theorem processRow_empty_td (item : FilmItem) (r : InfoboxRow)
    (h : joinTd r.tdTexts = "") : processRow item r = item := by
  simp [processRow, h]

/-- The sentinel is a non-empty string. -/
theorem sentinel_ne_empty : sentinel ≠ "" := by decide

/-- The resolved title is never empty. -/
theorem mkTitle_ne_empty (hts : List String) (url : String) : mkTitle hts url ≠ "" := by
  simp only [mkTitle]
  split_ifs with h1 h2
  · exact h1
  · exact h2
  · exact sentinel_ne_empty

/-! ## C5: classifier hard gate -/

/-- C5: a document with no recognizable infobox structure is classified
negative immediately; the result does not depend on any of the keyword
checks (the document's caption, lead, label and category contents are
arbitrary here). -/
theorem is_film_page_requires_infobox (d : ArticleDoc)
    (h : d.infoboxPresent = false) : is_film_page d = false := by
  simp [is_film_page, h]

/-- Witness for C5: a document full of the keyword everywhere, but with
no infobox, is still rejected. -/
theorem is_film_page_requires_infobox_witness :
    is_film_page ⟨[], false, ["фильм"], ["фильм"], [⟨["фильм"], ["фильм"]⟩], ["фильм"]⟩ = false :=
  is_film_page_requires_infobox _ rfl

/-! ## C9: rows with empty labels are skipped -/

/-- C9: an infobox row whose label cell text joins and trims to the
empty string is skipped entirely; no field of the record is modified by
that row, regardless of its value cells. -/
theorem processRow_empty_label_skip (item : FilmItem) (r : InfoboxRow)
    (h : pyStrip (joinWith "" r.thTexts) = "") : processRow item r = item := by
  simp [processRow, h]

/-- Witness for C9: a row with whitespace-only label text and a rich
value changes nothing. -/
theorem processRow_empty_label_skip_witness :
    processRow (initItem "Титаник") ⟨["  ", "\n"], ["Драма"]⟩ = initItem "Титаник" :=
  processRow_empty_label_skip _ _ (by decide)

/-! ## C3: monotonic upgrade (no overwrite by empty extraction) -/

/-- C3: appending a row whose joined value is empty to any row sequence
leaves the extraction state exactly as it was — in particular a field
already set to a non-sentinel value by an earlier row is never reset to
the sentinel or to an empty string by such a row. -/
theorem foldl_processRow_empty_value_no_change (init : FilmItem)
    (rows : List InfoboxRow) (r : InfoboxRow) (h : joinTd r.tdTexts = "") :
    (rows ++ [r]).foldl processRow init = rows.foldl processRow init := by
  rw [List.foldl_append]
  simp [processRow_empty_td _ _ h]

/-- Witness for C3: a genre set by an earlier row survives a later
genre row whose value cells are all blank. -/
theorem foldl_processRow_empty_value_no_change_witness :
    ([(⟨["Жанр"], ["драма"]⟩ : InfoboxRow)] ++ [(⟨["Жанр"], ["  ", ""]⟩ : InfoboxRow)]).foldl
        processRow (initItem "t")
      = [(⟨["Жанр"], ["драма"]⟩ : InfoboxRow)].foldl processRow (initItem "t") :=
  foldl_processRow_empty_value_no_change _ _ _ (by decide)

/-! ## C7: pagination -/

/-- C7: per category page at most one pagination request is yielded; a
truthy visible-text next link is always the one followed; the
`rel=next` link is followed only when the visible-text link is absent
(no match, or an empty href, which Python treats as no link); with
neither link present, zero pagination requests are yielded. -/
theorem paginationRequests_spec (d : CategoryDoc) :
    (paginationRequests d).length ≤ 1
    ∧ (∀ h, d.visibleNextHref = some h → h ≠ "" → paginationRequests d = [h])
    ∧ (truthyHref d.visibleNextHref = false →
        ∀ h, d.relNextHref = some h → h ≠ "" → paginationRequests d = [h])
    ∧ (d.visibleNextHref = none → d.relNextHref = none → paginationRequests d = []) := by
  obtain ⟨v, r⟩ := d
  refine ⟨?_, ?_, ?_, ?_⟩
  · cases v <;> cases r <;> simp [paginationRequests, nextPageRequest, truthyHref] <;>
      split_ifs <;> simp
  · intro h hv hne
    subst hv
    simp [paginationRequests, nextPageRequest, truthyHref, hne]
  · intro hv h hr hne
    subst hr
    cases v with
    | none => simp [paginationRequests, nextPageRequest, truthyHref, hne]
    | some s =>
      simp [truthyHref] at hv
      simp [paginationRequests, nextPageRequest, truthyHref, hv, hne]
  · intro hv hr
    subst hv; subst hr
    simp [paginationRequests, nextPageRequest, truthyHref]

/-- Witness for C7: a visible next link with an empty href counts as
absent, so the `rel=next` href is the single request. -/
theorem paginationRequests_spec_witness :
    paginationRequests ⟨some "", some "next.html"⟩ = ["next.html"] :=
  (paginationRequests_spec ⟨some "", some "next.html"⟩).2.2.1 (by decide) "next.html" rfl
    (by decide)

/-! ## C8: frontier idempotence -/

/-- Frontier invariant: each target is fetched at most once, and every
fetched target is recorded as visited. -/
def FrontierInv (f : Frontier) : Prop :=
  ∀ v : String, f.fetches.count v ≤ 1 ∧ (v ∈ f.fetches → v ∈ f.visited)

/-- The empty frontier satisfies the invariant. -/
theorem frontierInv_empty : FrontierInv ⟨[], []⟩ := by
  intro v; simp

/-- Submitting one target preserves the frontier invariant. -/
theorem frontierInv_enqueue {f : Frontier} (hf : FrontierInv f) (u : String) :
    FrontierInv (enqueue f u) := by
  intro v
  unfold enqueue
  split_ifs with h
  · exact hf v
  · constructor
    · simp only [List.count_append]
      by_cases hvu : v = u
      · subst hvu
        have : v ∉ f.fetches := fun hm => h ((hf v).2 hm)
        simp [List.count_eq_zero.mpr this]
      · simp [List.count_singleton', hvu, (hf v).1]
    · intro hm
      simp only [List.mem_append, List.mem_singleton] at hm
      rcases hm with hm | hm
      · exact List.mem_cons_of_mem _ ((hf v).2 hm)
      · subst hm; exact List.mem_cons_self _ _

/-- Submitting any target sequence preserves the frontier invariant. -/
theorem frontierInv_enqueueAll {f : Frontier} (hf : FrontierInv f) (us : List String) :
    FrontierInv (enqueueAll f us) := by
  induction us generalizing f with
  | nil => exact hf
  | cons u us ih => exact ih (frontierInv_enqueue hf u)

/-- C8: submitting a URLTarget a second time is a no-op (`enqueue` is
idempotent), the visited set only grows, submitting the same target
twice into a fresh frontier yields exactly one fetch, and over any whole
run from the empty frontier every target is fetched at most once. -/
theorem frontier_idempotent (f : Frontier) (u : String) (us : List String) :
    enqueue (enqueue f u) u = enqueue f u
    ∧ f.visited ⊆ (enqueue f u).visited
    ∧ (enqueueAll ⟨[], []⟩ [u, u]).fetches = [u]
    ∧ (enqueueAll ⟨[], []⟩ us).fetches.count u ≤ 1 := by
  refine ⟨?_, ?_, ?_, (frontierInv_enqueueAll frontierInv_empty us u).1⟩
  · by_cases h : u ∈ f.visited
    · simp [enqueue, h]
    · simp [enqueue, h]
  · by_cases h : u ∈ f.visited
    · simp [enqueue, h]
    · simp only [enqueue, if_neg h]
      exact List.subset_cons_self _ _
  · simp [enqueueAll, enqueue]

/-- Row processing never touches the title. -/
theorem processRow_title (item : FilmItem) (r : InfoboxRow) :
    (processRow item r).title = item.title := by
  simp only [processRow]
  repeat' split
  all_goals rfl

/-- Processing any row sequence never touches the title. -/
theorem foldl_processRow_title (item : FilmItem) (rows : List InfoboxRow) :
    (rows.foldl processRow item).title = item.title := by
  induction rows generalizing item with
  | nil => rfl
  | cons r rs ih => rw [List.foldl_cons, ih, processRow_title]

/-- The year fallback never touches the title. -/
theorem yearFallback_title (item : FilmItem) (lead : List String) :
    (yearFallback item lead).title = item.title := by
  simp only [yearFallback]
  repeat' split
  all_goals rfl

/-! ## C1: title resolution -/

/-- Counterexample for C1 as stated: on an article page whose primary
heading yields no text and whose URL has an empty final path segment,
the emitted record's title IS the sentinel `"не указано"` (the code's
last-resort branch), contradicting "the sentinel is never used for the
title". -/
theorem parse_article_title_sentinel_cex :
    parse_article ⟨[], true, ["фильм"], [], [], []⟩ "https://ru.wikipedia.org/wiki/"
      = some ⟨sentinel, sentinel, sentinel, sentinel, sentinel⟩ := by decide

/-- C1 (amended): the record title is always non-empty; the primary
heading is used when it yields text, else the URL-derived value when
that is non-empty, and only when both are empty does the title fall
back to the sentinel; the emitted record's title is exactly this
resolved title. -/
theorem mkTitle_fallback_chain (hts : List String) (url : String) (d : ArticleDoc)
    (it : FilmItem) :
    mkTitle hts url ≠ ""
    ∧ (headingTitle hts ≠ "" → mkTitle hts url = headingTitle hts)
    ∧ (headingTitle hts = "" → urlTitle url ≠ "" → mkTitle hts url = urlTitle url)
    ∧ (headingTitle hts = "" → urlTitle url = "" → mkTitle hts url = sentinel)
    ∧ (parse_article d url = some it → it.title = mkTitle d.headingTexts url) := by
  refine ⟨mkTitle_ne_empty hts url, ?_, ?_, ?_, ?_⟩
  · intro h; simp [mkTitle, h]
  · intro h1 h2; simp [mkTitle, h1, h2]
  · intro h1 h2; simp [mkTitle, h1, h2]
  · intro h
    unfold parse_article at h
    split_ifs at h
    have hrec : it = extractRecord d url := by
      injection h with h'; exact h'.symm
    subst hrec
    unfold extractRecord
    rw [yearFallback_title, foldl_processRow_title]
    rfl

/-- Witness for C1 (amended), at the spec's own example: empty heading
and URL ending in `/wiki/Inception_(film)` resolve the title from the
URL. -/
theorem mkTitle_fallback_chain_witness :
    mkTitle [] "https://ru.wikipedia.org/wiki/Inception_(film)"
      = urlTitle "https://ru.wikipedia.org/wiki/Inception_(film)" :=
  (mkTitle_fallback_chain [] "https://ru.wikipedia.org/wiki/Inception_(film)"
    ⟨[], false, [], [], [], []⟩ (initItem "x")).2.2.1 rfl (by decide)

/-! ## C2: totality of field extraction -/

/-- A found four-digit run is a non-empty string. -/
theorem firstFourDigitRunAux_ne :
    ∀ l cs, firstFourDigitRunAux l = some cs → cs ≠ []
  | a :: b :: c :: d :: rest => by
      intro cs h
      rw [firstFourDigitRunAux] at h
      split_ifs at h with hd
      · injection h with h'
        subst h'
        simp
      · exact firstFourDigitRunAux_ne (b :: c :: d :: rest) cs h
  | [] => by intro cs h; simp [firstFourDigitRunAux] at h
  | [_] => by intro cs h; simp [firstFourDigitRunAux] at h
  | [_, _] => by intro cs h; simp [firstFourDigitRunAux] at h
  | [_, _, _] => by intro cs h; simp [firstFourDigitRunAux] at h

/-- Strings returned by the 4-digit search are non-empty. -/
theorem firstFourDigitRun_ne_empty (s y : String) (h : firstFourDigitRun s = some y) :
    y ≠ "" := by
  unfold firstFourDigitRun at h
  cases haux : firstFourDigitRunAux s.data with
  | none => rw [haux] at h; simp at h
  | some cs =>
    rw [haux] at h
    injection h with h'
    subst h'
    intro hc
    exact firstFourDigitRunAux_ne s.data cs haux (congrArg String.data hc)

/-- The normalized year of a non-empty value is non-empty. -/
theorem yearNorm_ne_empty (td : String) (h : td ≠ "") : yearNorm td ≠ "" := by
  unfold yearNorm
  cases hr : firstFourDigitRun td with
  | none => exact h
  | some y => exact firstFourDigitRun_ne_empty td y hr

/-- All five fields of a record are non-empty strings. -/
def allFieldsNe (it : FilmItem) : Prop :=
  it.title ≠ "" ∧ it.genre ≠ "" ∧ it.director ≠ "" ∧ it.country ≠ "" ∧ it.year ≠ ""

/-- Row processing preserves non-emptiness of all fields. -/
theorem processRow_allFieldsNe {it : FilmItem} (r : InfoboxRow) (h : allFieldsNe it) :
    allFieldsNe (processRow it r) := by
  obtain ⟨h1, h2, h3, h4, h5⟩ := h
  simp only [processRow]
  repeat' split
  all_goals first
    | exact ⟨h1, h2, h3, h4, h5⟩
    | (rename_i htd; exact ⟨h1, htd, h3, h4, h5⟩)
    | (rename_i htd; exact ⟨h1, h2, htd, h4, h5⟩)
    | (rename_i htd; exact ⟨h1, h2, h3, htd, h5⟩)
    | (rename_i htd; exact ⟨h1, h2, h3, h4, yearNorm_ne_empty _ htd⟩)

/-- Folding row processing preserves non-emptiness of all fields. -/
theorem foldl_processRow_allFieldsNe {it : FilmItem} (rows : List InfoboxRow)
    (h : allFieldsNe it) : allFieldsNe (rows.foldl processRow it) := by
  induction rows generalizing it with
  | nil => exact h
  | cons r rs ih => exact ih (processRow_allFieldsNe r h)

/-- The year fallback preserves non-emptiness of all fields. -/
theorem yearFallback_allFieldsNe {it : FilmItem} (lead : List String)
    (h : allFieldsNe it) : allFieldsNe (yearFallback it lead) := by
  obtain ⟨h1, h2, h3, h4, h5⟩ := h
  simp only [yearFallback]
  repeat' split
  · rename_i y hy
    exact ⟨h1, h2, h3, h4, firstFourDigitRun_ne_empty _ y hy⟩
  · exact ⟨h1, h2, h3, h4, h5⟩
  · exact ⟨h1, h2, h3, h4, h5⟩

/-- C2: field extraction is total — a plain function of the document
and URL that always returns a record with exactly the five keys
`title`, `genre`, `director`, `country`, `year` (the `FilmItem`
structure), each bound to a non-empty string; no input makes it fail,
and no field is ever left missing or empty. -/
theorem extractRecord_total_nonempty (d : ArticleDoc) (url : String) :
    (extractRecord d url).title ≠ ""
    ∧ (extractRecord d url).genre ≠ ""
    ∧ (extractRecord d url).director ≠ ""
    ∧ (extractRecord d url).country ≠ ""
    ∧ (extractRecord d url).year ≠ "" := by
  have hinit : allFieldsNe (initItem (mkTitle d.headingTexts url)) :=
    ⟨mkTitle_ne_empty d.headingTexts url, sentinel_ne_empty, sentinel_ne_empty,
      sentinel_ne_empty, sentinel_ne_empty⟩
  exact yearFallback_allFieldsNe d.leadTexts
    (foldl_processRow_allFieldsNe d.infoboxRows hinit)

/-! ## C6: year normalization -/

/-- C6: a row routed to the year field (label matches `год` and none of
the earlier keywords) with a non-empty joined value sets the year to
its first 4-digit run when one exists, and to the raw joined value
verbatim otherwise. -/
theorem processRow_year_normalization (item : FilmItem) (r : InfoboxRow)
    (h1 : strContains (pyLower (pyStrip (joinWith "" r.thTexts))) "жанр" = false)
    (h2 : strContains (pyLower (pyStrip (joinWith "" r.thTexts))) "режис" = false)
    (h3 : strContains (pyLower (pyStrip (joinWith "" r.thTexts))) "стра" = false)
    (h4 : strContains (pyLower (pyStrip (joinWith "" r.thTexts))) "год" = true)
    (h5 : joinTd r.tdTexts ≠ "") :
    (processRow item r).year = yearNorm (joinTd r.tdTexts)
    ∧ (∀ y, firstFourDigitRun (joinTd r.tdTexts) = some y → (processRow item r).year = y)
    ∧ (firstFourDigitRun (joinTd r.tdTexts) = none →
        (processRow item r).year = joinTd r.tdTexts) := by
  have hth : pyStrip (joinWith "" r.thTexts) ≠ "" := by
    intro h0
    rw [h0] at h4
    exact absurd h4 (by decide)
  have hyear : (processRow item r).year = yearNorm (joinTd r.tdTexts) := by
    simp [processRow, hth, h1, h2, h3, h4, h5]
  refine ⟨hyear, ?_, ?_⟩
  · intro y hy
    rw [hyear]
    unfold yearNorm
    rw [hy]
  · intro hn
    rw [hyear]
    unfold yearNorm
    rw [hn]

/-- Witness for C6, at the spec's two examples: `(label="Год",
value="2015 год")` stores year `"2015"`, and `(label="Год",
value="нет данных")` stores the raw value `"нет данных"`. -/
theorem processRow_year_normalization_witness :
    (processRow (initItem "t") ⟨["Год"], ["2015 год"]⟩).year = "2015"
    ∧ (processRow (initItem "t") ⟨["Год"], ["нет данных"]⟩).year = "нет данных" :=
  ⟨(processRow_year_normalization (initItem "t") ⟨["Год"], ["2015 год"]⟩
      (by decide) (by decide) (by decide) (by decide) (by decide)).2.1 "2015" (by decide),
   (processRow_year_normalization (initItem "t") ⟨["Год"], ["нет данных"]⟩
      (by decide) (by decide) (by decide) (by decide) (by decide)).2.2 (by decide)⟩

/-! ## C10: last non-empty match wins -/

/-- Bridge: `processRow` in routed form — an unrouted row changes
nothing, a routed row with a non-empty joined value stores its value in
its routed field. -/
theorem processRow_eq (item : FilmItem) (r : InfoboxRow) :
    processRow item r =
      match routeOf r with
      | none => item
      | some f => if joinTd r.tdTexts ≠ "" then setField item f (storedValue r) else item := by
  by_cases h0 : pyStrip (joinWith "" r.thTexts) = ""
  · simp [processRow, routeOf, h0]
  · by_cases hg : strContains (pyLower (pyStrip (joinWith "" r.thTexts))) "жанр" = true
    · simp [processRow, routeOf, storedValue, setField, h0, hg]
    · by_cases hd : strContains (pyLower (pyStrip (joinWith "" r.thTexts))) "режис" = true
      · simp [processRow, routeOf, storedValue, setField, h0, hg, hd]
      · by_cases hc : strContains (pyLower (pyStrip (joinWith "" r.thTexts))) "стра" = true
        · simp [processRow, routeOf, storedValue, setField, h0, hg, hd, hc]
        · by_cases hy : strContains (pyLower (pyStrip (joinWith "" r.thTexts))) "год" = true
          · simp [processRow, routeOf, storedValue, setField, h0, hg, hd, hc, hy]
          · simp [processRow, routeOf, h0, hg, hd, hc, hy]

/-- Reading the field just written. -/
theorem getField_setField_same (it : FilmItem) (f : RecField) (v : String) :
    getField (setField it f v) f = v := by
  cases f <;> rfl

/-- Writing one field leaves the other fields unchanged. -/
theorem getField_setField_ne (it : FilmItem) (f f' : RecField) (v : String)
    (h : f ≠ f') : getField (setField it f v) f' = getField it f' := by
  cases f <;> cases f' <;> first | rfl | exact absurd rfl h

/-- A row that is not routed to `f` with a non-empty value leaves field
`f` unchanged. -/
theorem processRow_getField_unchanged (item : FilmItem) (r : InfoboxRow) (f : RecField)
    (hc : ¬(routeOf r = some f ∧ joinTd r.tdTexts ≠ "")) :
    getField (processRow item r) f = getField item f := by
  rw [processRow_eq]
  cases hro : routeOf r with
  | none => rfl
  | some f' =>
    by_cases htd : joinTd r.tdTexts ≠ ""
    · have hne : f' ≠ f := by
        intro h
        exact hc ⟨by rw [hro, h], htd⟩
      simp only [if_pos htd]
      exact getField_setField_ne item f' f _ hne
    · simp only [if_neg htd]

/-- The scan step at a matching row. -/
theorem lastRoutedStep_pos (f : RecField) (a : Option String) (r : InfoboxRow)
    (hc : routeOf r = some f ∧ joinTd r.tdTexts ≠ "") :
    lastRoutedStep f a r = some (storedValue r) := by
  unfold lastRoutedStep
  rw [if_pos hc]

/-- The scan step at a non-matching row. -/
theorem lastRoutedStep_neg (f : RecField) (a : Option String) (r : InfoboxRow)
    (hc : ¬(routeOf r = some f ∧ joinTd r.tdTexts ≠ "")) :
    lastRoutedStep f a r = a := by
  unfold lastRoutedStep
  rw [if_neg hc]

/-- The scan with an arbitrary accumulator, in terms of the scan from
`none`. -/
theorem lastRouted_foldl_acc (f : RecField) (rows : List InfoboxRow) :
    ∀ a, rows.foldl (lastRoutedStep f) a
      = match rows.foldl (lastRoutedStep f) none with
        | some w => some w
        | none => a := by
  induction rows with
  | nil => intro a; rfl
  | cons r rs ih =>
    intro a
    simp only [List.foldl_cons]
    by_cases hc : routeOf r = some f ∧ joinTd r.tdTexts ≠ ""
    · rw [lastRoutedStep_pos f a r hc, lastRoutedStep_pos f none r hc,
        ih (some (storedValue r))]
      cases rs.foldl (lastRoutedStep f) none <;> rfl
    · rw [lastRoutedStep_neg f a r hc, lastRoutedStep_neg f none r hc]
      exact ih a

/-- C10: last non-empty match wins — after processing any row
sequence, each routed field holds the stored value of the LAST row
routed to it with a non-empty joined value (later matching rows
overwrite earlier ones, defaults or not), and keeps its initial value
when no such row exists. -/
theorem foldl_processRow_last_write_wins (init : FilmItem) (rows : List InfoboxRow)
    (f : RecField) :
    getField (rows.foldl processRow init) f = (lastRouted f rows).getD (getField init f) := by
  induction rows generalizing init with
  | nil => rfl
  | cons r rs ih =>
    rw [List.foldl_cons, ih (processRow init r)]
    unfold lastRouted
    rw [List.foldl_cons, lastRouted_foldl_acc f rs (lastRoutedStep f none r)]
    cases hrs : rs.foldl (lastRoutedStep f) none with
    | some w => simp
    | none =>
      simp only [Option.getD_none]
      by_cases hc : routeOf r = some f ∧ joinTd r.tdTexts ≠ ""
      · rw [lastRoutedStep_pos f none r hc]
        simp only [Option.getD_some]
        have hPR : processRow init r = setField init f (storedValue r) := by
          rw [processRow_eq, hc.1]
          simp [hc.2]
        rw [hPR, getField_setField_same]
      · rw [lastRoutedStep_neg f none r hc]
        simp only [Option.getD_none]
        exact processRow_getField_unchanged init r f hc

/-! ## C4: classifier conservativeness -/

/-- The empty pattern occurs in every string. -/
theorem listContainsSub_nil (l : List Char) : listContainsSub [] l = true := by
  cases l with
  | nil => rfl
  | cons c t => simp [listContainsSub, listIsPfx]

/-- A prefix of `l` is a prefix of `l ++ r`. -/
theorem listIsPfx_append (p l r : List Char) (h : listIsPfx p l = true) :
    listIsPfx p (l ++ r) = true := by
  induction p generalizing l with
  | nil => rfl
  | cons a p ih =>
    cases l with
    | nil => simp [listIsPfx] at h
    | cons b l' =>
      simp only [listIsPfx, Bool.and_eq_true, decide_eq_true_eq] at h
      simp only [List.cons_append, listIsPfx, Bool.and_eq_true, decide_eq_true_eq]
      exact ⟨h.1, ih l' h.2⟩

/-- An occurrence in `l` is an occurrence in `l ++ r`. -/
theorem listContainsSub_append (pat l r : List Char) (h : listContainsSub pat l = true) :
    listContainsSub pat (l ++ r) = true := by
  induction l with
  | nil =>
    have hp : pat = [] := by
      simpa [listContainsSub, List.isEmpty_iff] using h
    subst hp
    exact listContainsSub_nil r
  | cons c t ih =>
    simp only [listContainsSub, Bool.or_eq_true] at h
    simp only [List.cons_append, listContainsSub, Bool.or_eq_true]
    rcases h with h | h
    · exact Or.inl (listIsPfx_append pat (c :: t) r h)
    · exact Or.inr (ih h)

/-- Prefix order is transitive. -/
theorem listIsPfx_trans (p q l : List Char) (h1 : listIsPfx p q = true)
    (h2 : listIsPfx q l = true) : listIsPfx p l = true := by
  induction p generalizing q l with
  | nil => rfl
  | cons a p ih =>
    cases q with
    | nil => simp [listIsPfx] at h1
    | cons b q' =>
      cases l with
      | nil => simp [listIsPfx] at h2
      | cons c l' =>
        simp only [listIsPfx, Bool.and_eq_true, decide_eq_true_eq] at h1 h2 ⊢
        exact ⟨h1.1.trans h2.1, ih q' l' h1.2 h2.2⟩

/-- An occurrence of `q` gives an occurrence of any prefix `p` of `q`. -/
theorem listContainsSub_of_pfx (p q l : List Char) (hpq : listIsPfx p q = true)
    (h : listContainsSub q l = true) : listContainsSub p l = true := by
  induction l with
  | nil =>
    have hq : q = [] := by
      simpa [listContainsSub, List.isEmpty_iff] using h
    subst hq
    cases p with
    | nil => rfl
    | cons a p' => simp [listIsPfx] at hpq
  | cons c t ih =>
    simp only [listContainsSub, Bool.or_eq_true] at h ⊢
    rcases h with h | h
    · exact Or.inl (listIsPfx_trans p q (c :: t) hpq h)
    · exact Or.inr (ih h)

/-- A joined take is an initial segment of the full join. -/
theorem joinWithL_take (sp : List Char) (ps : List (List Char)) :
    ∀ n : Nat, ∃ r, joinWithL sp ps = joinWithL sp (ps.take n) ++ r := by
  induction ps with
  | nil => intro n; exact ⟨[], by simp [joinWithL]⟩
  | cons p ps' ih =>
    intro n
    cases n with
    | zero => exact ⟨joinWithL sp (p :: ps'), by simp [joinWithL]⟩
    | succ m =>
      cases ps' with
      | nil => exact ⟨[], by simp [joinWithL]⟩
      | cons q ps'' =>
        cases m with
        | zero =>
          refine ⟨sp ++ joinWithL sp (q :: ps''), ?_⟩
          simp [joinWithL, List.append_assoc]
        | succ k =>
          obtain ⟨r, hr⟩ := ih (k + 1)
          refine ⟨r, ?_⟩
          simp only [List.take_succ_cons, joinWithL, hr, List.append_assoc]

/-- Keyword absence in the full space-joined lead text implies absence
in the code's first-`n`-nodes join. -/
theorem strContains_join_take (parts : List String) (pat : String) (n : Nat)
    (h : strContains (pyLower (joinWith " " parts)) pat = false) :
    strContains (pyLower (joinWith " " (parts.take n))) pat = false := by
  by_contra hcon
  rw [Bool.not_eq_false] at hcon
  obtain ⟨r, hr⟩ := joinWithL_take (" ".data) (parts.map String.data) n
  have hful : strContains (pyLower (joinWith " " parts)) pat = true := by
    show listContainsSub pat.data
      ((joinWithL (" ".data) (parts.map String.data)).map ruLower) = true
    rw [hr, List.map_append]
    apply listContainsSub_append
    have hmt : (parts.map String.data).take n = (parts.take n).map String.data :=
      (List.map_take String.data parts n).symm
    rw [hmt]
    exact hcon
  rw [h] at hful
  exact Bool.false_ne_true hful

/-- C4: a document that does contain an infobox, but in which the
keyword `фильм` occurs nowhere in the infobox caption text, nowhere in
the space-joined lead paragraph text, not in the leading infobox label
text node, and in no category link text, is classified negative. -/
theorem is_film_page_conservative (d : ArticleDoc)
    (hbox : d.infoboxPresent = true)
    (hcap : ∀ c ∈ d.captionTexts, strContains (pyLower c) "фильм" = false)
    (hlead : strContains (pyLower (joinWith " " d.leadTexts)) "фильм" = false)
    (hth : ∀ t, (thTextNodes d).head? = some t → strContains (pyLower t) "фильм" = false)
    (hcat : ∀ c ∈ d.catLinkTexts, strContains (pyLower (pyStrip c)) "фильм" = false) :
    is_film_page d = false := by
  have hc1 : captionHasKw d = false := by
    unfold captionHasKw
    cases hcs : d.captionTexts with
    | nil => rfl
    | cons c cs =>
      have hmem : c ∈ d.captionTexts := by rw [hcs]; exact List.mem_cons_self c cs
      simp [hcap c hmem]
  have hc2 : leadHasKw d = false := by
    unfold leadHasKw
    by_cases hemp : d.leadTexts.isEmpty
    · simp only [hemp, if_true]
      decide
    · simp only [hemp, if_false, Bool.false_eq_true]
      exact strContains_join_take d.leadTexts "фильм" 200 hlead
  have hc3 : firstThHasKw d = false := by
    unfold firstThHasKw
    cases hh : (thTextNodes d).head? with
    | none => rfl
    | some t => simp [hth t hh]
  have hc4 : catsHaveKw d = false := by
    unfold catsHaveKw
    rw [List.any_eq_false]
    intro x hx
    rw [List.mem_map] at hx
    obtain ⟨c, hcm, rfl⟩ := hx
    have h1 := hcat c hcm
    simp only [Bool.or_eq_true, not_or]
    constructor
    · rw [h1]; exact Bool.false_ne_true
    · intro h2
      have : strContains (pyLower (pyStrip c)) "фильм" = true :=
        listContainsSub_of_pfx ("фильм".data) ("фильмы".data) (pyLower (pyStrip c)).data
          (by decide) h2
      rw [h1] at this
      exact Bool.false_ne_true this
  unfold is_film_page
  simp [hbox, hc1, hc2, hc3, hc4]

/-- Witness for C4: a document with an infobox about a person (no film
keyword anywhere) is rejected. -/
theorem is_film_page_conservative_witness :
    is_film_page ⟨["Иванов"], true, ["Персона"], ["Иванов — актёр."],
      [⟨["Имя"], ["Иван Иванов"]⟩], ["Актёры"]⟩ = false :=
  is_film_page_conservative _ rfl (by decide) (by decide)
    (by intro t ht; injection ht with h; subst h; decide) (by decide)
